import Mathlib

/-!
# FeatureLens: verification of the windowed-aggregation and alerting core

A shallow embedding of the FeatureLens Go sources:

* `internal/message` (`DynamicMessage`, `GetFloat64`, `HasNonNull`,
  `GetFieldSnippet`),
* `internal/pipeline/calculator*.go` (`FeatureStats`, `windowInfo`,
  `updateFeatureStats`, `processNumericalValue`, `calculateMeanVariance`,
  `processMessage`, `collectAndRemoveCompletedWindows`,
  `processAndSendWindowResults`, `flushWindows`),
* `internal/pipeline/alerter.go` (`Alerter.processResult` and the threshold
  check helpers),
* `internal/pipeline/pipeline.go` (`Pipeline.Run` error selection).

Modelling conventions:

* Go `float64` values are modelled as exact rationals `ℚ`; the IEEE NaN
  sentinel is modelled as `Option ℚ` with `none` playing the role of NaN
  (the code only ever produces NaN via the explicit `math.NaN()` sentinel
  and only ever tests it via `math.IsNaN`, never through arithmetic on
  NaNs, so the `Option` view is faithful).
* `math.Sqrt` is kept as an explicit function parameter `sq : ℚ → ℚ`;
  every statement about the alerter is proved for an arbitrary such
  function.
* Go `time.Time` instants are integers (nanoseconds since the epoch), and
  `time.Duration` is an integer; `Time.Truncate(d)` for `d > 0` rounds
  down to a multiple of `d` since the zero time, i.e. `t - t.emod d`.
* Go maps are association lists; map writes are first-match in-place
  updates, map builds from a slice keep the last write for a key.
* Go `int`/`int64` counters are modelled as `ℤ` (the counters only ever
  grow by single increments from zero, far from the 2^63 wrap).
-/

namespace FeatureLens

/-! ## Record model: `internal/message` -/

/-- A dynamically-typed JSON-ish value stored in a `DynamicMessage`
(`map[string]interface{}` in Go).  The numeric constructors mirror the
cases `GetFloat64` converts (`float64`, `int`, `int64`, `float32`); `vstr`
and `vbool` are present-but-non-numeric values; `vnull` is an explicit
JSON null stored under the key. -/
inductive GoValue : Type where
  | vnull : GoValue
  | vfloat (q : ℚ) : GoValue
  | vint (n : ℤ) : GoValue
  | vint64 (n : ℤ) : GoValue
  | vfloat32 (q : ℚ) : GoValue
  | vstr (s : String) : GoValue
  | vbool (b : Bool) : GoValue
deriving DecidableEq, Repr

/-- `message.DynamicMessage`: a map from field name to dynamic value,
modelled as an association list with unique keys. -/
abbrev DynamicMessage := List (String × GoValue)

/-- Go map read `dm[key]`: the value stored under `key`, if any. -/
def lookupField (dm : DynamicMessage) (key : String) : Option GoValue :=
  (dm.find? (fun p => p.1 = key)).map Prod.snd

/-- `DynamicMessage.GetFloat64`: `nil` for an absent key or explicit null;
direct `float64`; then the `int`/`int64`/`float32` conversions; any other
type is not convertible. -/
def GetFloat64 (dm : DynamicMessage) (key : String) : Option ℚ :=
  match lookupField dm key with
  | none => none
  | some v =>
    match v with
    | GoValue.vnull => none
    | GoValue.vfloat q => some q
    | GoValue.vint n => some (n : ℚ)
    | GoValue.vint64 n => some (n : ℚ)
    | GoValue.vfloat32 q => some q
    | _ => none

/-- `DynamicMessage.HasNonNull`: the key exists and its value is not
explicitly null. -/
def HasNonNull (dm : DynamicMessage) (key : String) : Bool :=
  match lookupField dm key with
  | none => false
  | some v => v ≠ GoValue.vnull

/-- `fmt.Sprintf("%v", value)` as used by `GetFieldSnippet`: a definite
textual rendering of the stored value.  Strings render as themselves,
booleans as `true`/`false`, an explicit null interface as `<nil>`; the
numeric renderings stand in for Go's `%v` number formatting (the snippet
logic below only inspects the rendering's length). -/
def goRender : GoValue → String
  | GoValue.vnull => "<nil>"
  | GoValue.vfloat q => toString q
  | GoValue.vint n => toString n
  | GoValue.vint64 n => toString n
  | GoValue.vfloat32 q => toString q
  | GoValue.vstr s => s
  | GoValue.vbool b => if b then "true" else "false"

/-- `DynamicMessage.GetFieldSnippet`: `"<missing>"` for an absent key;
otherwise render the value; a non-positive `maxLength` yields `"..."`;
a rendering longer than `maxLength` is truncated to `maxLength` with
`"..."` appended; otherwise the full rendering is returned. -/
def GetFieldSnippet (dm : DynamicMessage) (fieldName : String) (maxLength : ℤ) : String :=
  match lookupField dm fieldName with
  | none => "<missing>"
  | some value =>
    let strValue := goRender value
    if maxLength ≤ 0 then "..."
    else if maxLength < (strValue.length : ℤ) then (strValue.take maxLength.toNat) ++ "..."
    else strValue

/-! ## Aggregation engine state: `calculator_types.go` -/

/-- `pipeline.FeatureStats`: running aggregates for one feature in one
window (`count`, `nullCount` are Go `int64`; `sum`, `sumSq` are
`float64`). -/
structure FeatureStats : Type where
  count : ℤ
  nullCount : ℤ
  sum : ℚ
  sumSq : ℚ
deriving DecidableEq, Repr

/-- The zero value `&FeatureStats{}` a fresh accumulator starts from. -/
def FeatureStats.zero : FeatureStats := ⟨0, 0, 0, 0⟩

/-- `pipeline.windowInfo`: one time window and the per-feature stats in
it (`features` is a Go map, modelled as an association list). -/
structure WindowInfo : Type where
  windowStart : ℤ
  windowEnd : ℤ
  features : List (String × FeatureStats)
deriving DecidableEq, Repr

/-- `newWindowInfo`: fresh window state with an empty feature map. -/
def newWindowInfo (start stop : ℤ) : WindowInfo :=
  ⟨start, stop, []⟩

/-- `Calculator.windowStates`: map from window-end instant to window
state. -/
abbrev CalcState := List (ℤ × WindowInfo)

/-- `config.Thresholds`: optional per-metric bounds (`*float64` fields in
Go; `none` means the bound is unset and the check is skipped). -/
structure Thresholds : Type where
  nullRate : Option ℚ
  meanMin : Option ℚ
  meanMax : Option ℚ
  stdDevMin : Option ℚ
  stdDevMax : Option ℚ
deriving DecidableEq, Repr

/-- `config.FeatureConfig`: a monitored feature's name, metric type tag
and optional threshold bounds. -/
structure FeatureConfig : Type where
  name : String
  metricType : String
  thresholds : Thresholds
deriving DecidableEq, Repr

/-- `pipeline.AggregationResult`: the immutable per-(feature, window)
snapshot sent downstream at flush time.  `mean`/`variance` are `none`
when the corresponding Go field is the NaN sentinel. -/
structure AggregationResult : Type where
  featureName : String
  windowStart : ℤ
  windowEnd : ℤ
  count : ℤ
  nullCount : ℤ
  mean : Option ℚ
  variance : Option ℚ
deriving DecidableEq, Repr

/-! ## Per-message stats update: `updateFeatureStats`,
`processNonNullValue`, `processNumericalValue` -/

/-- The combined effect of `Calculator.updateFeatureStats` (after
`getOrCreateFeatureStats` has produced `s`), `processNonNullValue` and
`processNumericalValue` on one accumulator: increment `count`; a
null/absent field increments `nullCount` and returns; otherwise the
`"numerical"` metric type converts via `GetFloat64` and on success adds
`v` to `sum` and `v*v` to `sumSq`; a failed conversion or an unrecognized
metric type only logs and leaves the accumulator at the bare `count`
increment. -/
def updateStats (msg : DynamicMessage) (cfg : FeatureConfig) (s : FeatureStats) :
    FeatureStats :=
  let s1 : FeatureStats := { s with count := s.count + 1 }
  if ¬ HasNonNull msg cfg.name then
    { s1 with nullCount := s1.nullCount + 1 }
  else
    match cfg.metricType with
    | "numerical" =>
      match GetFloat64 msg cfg.name with
      | some v => { s1 with sum := s1.sum + v, sumSq := s1.sumSq + v * v }
      | none => s1
    | _ => s1

/-- Folding a whole stream of messages for one (window, feature) pair
through `updateStats`, starting from the zero accumulator, as the
calculator does message by message. -/
def ingestAll (cfg : FeatureConfig) (msgs : List DynamicMessage) : FeatureStats :=
  msgs.foldl (fun s m => updateStats m cfg s) FeatureStats.zero

/-! ## Flush-time mean/variance: `calculateMeanVariance` -/

/-- The `-1e-9` tolerance below which a negative computed variance is
logged as an anomaly (either way it is clamped to `0`). -/
def varianceTolerance : ℚ := 1 / 1000000000

/-- `Calculator.calculateMeanVariance`: NaN/NaN when
`validCount = count - nullCount ≤ 0`; otherwise
`mean = sum / validCount` and `variance = sumSq / validCount - mean²`,
with a negative variance inside `(-1e-9, 0)` clamped to `0` as floating
noise and a variance `≤ -1e-9` logged and also clamped to `0`. -/
def calculateMeanVariance (s : FeatureStats) : Option ℚ × Option ℚ :=
  let validCount := s.count - s.nullCount
  if validCount ≤ 0 then (none, none)
  else
    let mean := s.sum / (validCount : ℚ)
    let meanSq := mean * mean
    let sumSqAvg := s.sumSq / (validCount : ℚ)
    let variance := sumSqAvg - meanSq
    let clamped :=
      if variance < 0 ∧ -varianceTolerance < variance then 0
      else if variance < 0 then 0
      else variance
    (some mean, some clamped)

/-! ## Window assignment and ingestion: `processMessage`,
`getOrCreateFeatureStats`, `updateFeatureStats` over the state map -/

/-- Go map write-through: update the entry for `k` in place with `f`,
creating it from `dflt` (then applying `f`) when absent — the combined
effect of the calculator's get-or-create followed by a mutation of the
returned pointer. -/
def assocUpdate {K V : Type} [DecidableEq K] (k : K) (f : V → V) (dflt : V) :
    List (K × V) → List (K × V)
  | [] => [(k, f dflt)]
  | (k', v) :: rest =>
    if k' = k then (k', f v) :: rest else (k', v) :: assocUpdate k f dflt rest

/-- `time.Time.Truncate(d)` for a positive duration: round the instant
down to a multiple of `d` since the zero time. -/
def truncateTime (t d : ℤ) : ℤ := t - t.emod d

/-- The window-end instant `processMessage` assigns at processing time
`now` with window length `d`: `now.Truncate(d).Add(d)`. -/
def windowEndOf (d now : ℤ) : ℤ := truncateTime now d + d

/-- One feature's share of `Calculator.processMessage`:
`getOrCreateFeatureStats windowEnd name` (lazily creating the
`windowInfo` with `windowStart = windowEnd - d` and the zero
`FeatureStats`) followed by `updateFeatureStats`. -/
def updOne (d : ℤ) (msg : DynamicMessage) (cfg : FeatureConfig) (windowEnd : ℤ)
    (st : CalcState) : CalcState :=
  assocUpdate windowEnd
    (fun w => { w with
      features := assocUpdate cfg.name (updateStats msg cfg) FeatureStats.zero w.features })
    (newWindowInfo (windowEnd - d) windowEnd) st

/-- `Calculator.processMessage`: compute the tumbling window end from the
processing instant and fold `updateFeatureStats` over every configured
feature. -/
def processMessage (d : ℤ) (cfgs : List FeatureConfig) (msg : DynamicMessage)
    (now : ℤ) (st : CalcState) : CalcState :=
  cfgs.foldl (fun s cfg => updOne d msg cfg (windowEndOf d now) s) st

/-! ## Flush: `collectAndRemoveCompletedWindows`,
`processAndSendWindowResults`, `flushWindows` -/

/-- `Calculator.collectAndRemoveCompletedWindows`: scan the live map and
move every window whose end is not after the cutoff (`end ≤ cutoff`) into
the completed set, deleting it from the live state; everything else is
retained.  Returns `(completed, retained)`. -/
def collectAndRemoveCompletedWindows (cutoff : ℤ) (st : CalcState) :
    CalcState × CalcState :=
  st.foldl
    (fun acc p =>
      if p.1 ≤ cutoff then (acc.1 ++ [p], acc.2) else (acc.1, acc.2 ++ [p]))
    ([], [])

/-- The `AggregationResult`s `Calculator.processAndSendWindowResults`
builds for one completed window: one per feature, skipping features whose
`count` is `0`, with mean/variance from `calculateMeanVariance`. -/
def windowResults (windowEnd : ℤ) (w : WindowInfo) : List AggregationResult :=
  w.features.filterMap (fun p =>
    if p.2.count = 0 then none
    else
      let mv := calculateMeanVariance p.2
      some { featureName := p.1
             windowStart := w.windowStart
             windowEnd := windowEnd
             count := p.2.count
             nullCount := p.2.nullCount
             mean := mv.1
             variance := mv.2 })

/-- `Calculator.flushWindows`: remove the completed windows from the live
state and produce the results for every completed window (the attempted
emissions; the lossy channel send is modelled separately below).  Returns
`(retained state, produced results)`. -/
def flushWindows (cutoff : ℤ) (st : CalcState) : CalcState × List AggregationResult :=
  let cr := collectAndRemoveCompletedWindows cutoff st
  (cr.2, cr.1.flatMap (fun p => windowResults p.1 p.2))

/-- The lossy non-blocking send `case c.output <- result: ... default:`
onto the bounded results channel: the result is appended when the buffer
has free capacity and silently dropped (with a warning log) when the
buffer is full.  Returns the new buffer and whether the send succeeded. -/
def trySend (cap : ℕ) (q : List AggregationResult) (r : AggregationResult) :
    List AggregationResult × Bool :=
  if q.length < cap then (q ++ [r], true) else (q, false)

/-- `flushWindows` with the results-channel buffer threaded through: each
produced result is offered to the channel with the non-blocking send, in
production order.  Returns `(retained state, final buffer)`. -/
def flushWindowsQ (cap : ℕ) (cutoff : ℤ) (st : CalcState)
    (q : List AggregationResult) : CalcState × List AggregationResult :=
  let fl := flushWindows cutoff st
  (fl.1, fl.2.foldl (fun acc r => (trySend cap acc r).1) q)

/-! ## Calculator event loop: `Calculator.Run` -/

/-- One iteration of the calculator's `select` loop: either a message
arrives (ingested at its processing instant) or a flush fires (ticker
tick, input closure, or cancellation — all call `flushWindows` with the
relevant cutoff instant). -/
inductive CalcEvent : Type where
  | ingest (msg : DynamicMessage) (now : ℤ) : CalcEvent
  | flush (cutoff : ℤ) : CalcEvent
deriving DecidableEq

/-- One step of `Calculator.Run`, returning the new state and the
results produced by this step. -/
def calcStep (d : ℤ) (cfgs : List FeatureConfig) (st : CalcState) :
    CalcEvent → CalcState × List AggregationResult
  | CalcEvent.ingest msg now => (processMessage d cfgs msg now st, [])
  | CalcEvent.flush cutoff => flushWindows cutoff st

/-- Running the calculator over a sequence of loop events, accumulating
every result produced along the way. -/
def calcRun (d : ℤ) (cfgs : List FeatureConfig) :
    CalcState → List CalcEvent → CalcState × List AggregationResult
  | st, [] => (st, [])
  | st, e :: rest =>
    let step := calcStep d cfgs st e
    let tail := calcRun d cfgs step.1 rest
    (tail.1, step.2 ++ tail.2)

/-! ## Threshold evaluator: `alerter.go` -/

/-- The feature map `NewAlerter` builds from the configured feature
slice: `m[f.Name] = f` in slice order, so the last config for a name
wins. -/
def featureLookup (features : List FeatureConfig) (name : String) :
    Option FeatureConfig :=
  features.foldl (fun acc f => if f.name = name then some f else acc) none

/-- One recorded violation: the `(check_type, comparison)` label pair of
the `featureThresholdViolations` counter increment. -/
abbrev Violation := String × String

/-- `Alerter.checkNullRate`: skipped when the bound is unset or the rate
is NaN; a violation iff `actualRate > threshold`. -/
def checkNullRate (actualRate : Option ℚ) (threshold : Option ℚ) : List Violation :=
  match threshold, actualRate with
  | some thr, some rate => if thr < rate then [("null_rate", ">")] else []
  | _, _ => []

/-- `Alerter.checkMean`: skipped entirely when the mean is NaN; the min
and max bounds are checked independently, each only when set. -/
def checkMean (actualMean : Option ℚ) (minT maxT : Option ℚ) : List Violation :=
  match actualMean with
  | none => []
  | some m =>
    (match minT with
     | some b => if m < b then [("mean", "<")] else []
     | none => []) ++
    (match maxT with
     | some b => if b < m then [("mean", ">")] else []
     | none => [])

/-- `Alerter.checkStdDev`: skipped entirely when the stddev is NaN; the
min and max bounds are checked independently, each only when set. -/
def checkStdDev (actualStdDev : Option ℚ) (minT maxT : Option ℚ) : List Violation :=
  match actualStdDev with
  | none => []
  | some sd =>
    (match minT with
     | some b => if sd < b then [("stddev", "<")] else []
     | none => []) ++
    (match maxT with
     | some b => if b < sd then [("stddev", ">")] else []
     | none => [])

/-- The five observer gauges `Alerter.processResult` sets for a
configured feature (`featurelens_feature_window_*`, keyed by feature
name). -/
structure GaugeWrites : Type where
  count : ℚ
  nullCount : ℚ
  nullRate : ℚ
  mean : ℚ
  stdDev : ℚ
deriving DecidableEq, Repr

/-- `Alerter.processResult`, parametric in the square-root function `sq`
standing for `math.Sqrt`: `none` when the feature is unconfigured (warn
and skip, no gauges, no checks); otherwise compute
`nullRate = nullCount / count` when `count > 0` (else NaN) and
`stdDev = sq variance` when the variance is a non-NaN non-negative
number (else NaN), set all five gauges (a NaN metric writes `0`), and run
the three check helpers. -/
def processResult (features : List FeatureConfig) (sq : ℚ → ℚ)
    (r : AggregationResult) : Option (GaugeWrites × List Violation) :=
  match featureLookup features r.featureName with
  | none => none
  | some cfg =>
    let nullRateVal : Option ℚ :=
      if 0 < r.count then some ((r.nullCount : ℚ) / (r.count : ℚ)) else none
    let stdDevVal : Option ℚ :=
      match r.variance with
      | some v => if 0 ≤ v then some (sq v) else none
      | none => none
    let g : GaugeWrites :=
      { count := (r.count : ℚ)
        nullCount := (r.nullCount : ℚ)
        nullRate := nullRateVal.getD 0
        mean := r.mean.getD 0
        stdDev := stdDevVal.getD 0 }
    let th := cfg.thresholds
    some (g,
      checkNullRate nullRateVal th.nullRate ++
      checkMean r.mean th.meanMin th.meanMax ++
      checkStdDev stdDevVal th.stdDevMin th.stdDevMax)

/-! ## Pipeline orchestration: `pipeline.go` error selection -/

/-- Go error values as the pipeline handles them: the `context.Canceled`
sentinel, `context.DeadlineExceeded`, a named sentinel error (the
`errors.New` values of `errors.go`), or a `fmt.Errorf("%w: %w", ...)`
wrap. -/
inductive GoError : Type where
  | canceled : GoError
  | deadlineExceeded : GoError
  | base (name : String) : GoError
  | wrap (outer inner : GoError) : GoError
deriving DecidableEq, Repr

/-- `errors.Is e target` over this error tree: `e` is `target` or wraps
an error that is. -/
def errIs : GoError → GoError → Bool
  | GoError.wrap outer inner, target =>
    GoError.wrap outer inner = target || errIs outer target || errIs inner target
  | e, target => e = target

/-- What one fallible stage wrapper (`runConsumer` / `runCalculator` /
`runAlerter`) sends on the error channel given its component's return:
nothing for a `nil` or cancellation return, otherwise the error wrapped
with the stage's sentinel via `fmt.Errorf("%w: %w", stageErr, err)`. -/
def stageReport (stageTag : GoError) (componentErr : Option GoError) : Option GoError :=
  match componentErr with
  | none => none
  | some e => if errIs e GoError.canceled then none else some (GoError.wrap stageTag e)

/-- The shutdown trigger `Pipeline.Run` observes first: the context's
`Done` firing (with `ctx.Err()`), or the first error delivered on the
buffered error channel. -/
inductive RunTrigger : Type where
  | ctxDone (ctxErr : GoError) : RunTrigger
  | componentErr (e : GoError) : RunTrigger
deriving DecidableEq, Repr

/-- The tail of `Pipeline.Run` after the wait-group finishes: with
`firstErr` taken from the trigger, return it unless it is `nil` or
satisfies `errors.Is(firstErr, context.Canceled)`, in which case return
`nil`. -/
def pipelineRunReturn (trigger : RunTrigger) : Option GoError :=
  let firstErr :=
    match trigger with
    | RunTrigger.ctxDone e => some e
    | RunTrigger.componentErr e => some e
  match firstErr with
  | some e => if errIs e GoError.canceled then none else some e
  | none => none

/-- `Pipeline.Run` over the whole run: the error channel holds the
reports of the fallible stages in delivery order; the select takes the
external cancellation if it fired first, otherwise the first channel
error (later channel entries are never read — shutdown is already under
way). -/
def pipelineRun (cancelledFirst : Bool) (errCh : List GoError) : Option GoError :=
  if cancelledFirst then pipelineRunReturn (RunTrigger.ctxDone GoError.canceled)
  else
    match errCh with
    | [] => none
    | e :: _ => pipelineRunReturn (RunTrigger.componentErr e)

/-! ## Helper lemmas: one ingest step -/

theorem updateStats_count (msg : DynamicMessage) (cfg : FeatureConfig) (s : FeatureStats) :
    (updateStats msg cfg s).count = s.count + 1 := by
  unfold updateStats
  dsimp only
  split
  · rfl
  · split
    · split <;> rfl
    · rfl

theorem updateStats_of_null (msg : DynamicMessage) (cfg : FeatureConfig) (s : FeatureStats)
    (h : HasNonNull msg cfg.name = false) :
    updateStats msg cfg s =
      { s with count := s.count + 1, nullCount := s.nullCount + 1 } := by
  unfold updateStats
  simp [h]

theorem updateStats_of_num (msg : DynamicMessage) (cfg : FeatureConfig) (s : FeatureStats)
    (h : HasNonNull msg cfg.name = true) (hm : cfg.metricType = "numerical")
    (v : ℚ) (hv : GetFloat64 msg cfg.name = some v) :
    updateStats msg cfg s =
      { s with count := s.count + 1, sum := s.sum + v, sumSq := s.sumSq + v * v } := by
  unfold updateStats
  simp [h, hm, hv]

theorem updateStats_of_unconvertible (msg : DynamicMessage) (cfg : FeatureConfig)
    (s : FeatureStats) (h : HasNonNull msg cfg.name = true)
    (hm : cfg.metricType = "numerical") (hv : GetFloat64 msg cfg.name = none) :
    updateStats msg cfg s = { s with count := s.count + 1 } := by
  unfold updateStats
  simp [h, hm, hv]

theorem getFloat64_eq_none_of_not_hasNonNull (dm : DynamicMessage) (key : String)
    (h : HasNonNull dm key = false) : GetFloat64 dm key = none := by
  unfold HasNonNull at h
  unfold GetFloat64
  cases hl : lookupField dm key with
  | none => rfl
  | some v =>
    rw [hl] at h
    cases v <;> simp_all

theorem updateStats_nullCount_cases (msg : DynamicMessage) (cfg : FeatureConfig)
    (s : FeatureStats) :
    (updateStats msg cfg s).nullCount = s.nullCount ∨
      (updateStats msg cfg s).nullCount = s.nullCount + 1 := by
  unfold updateStats
  dsimp only
  split
  · right; rfl
  · split
    · split
      · left; rfl
      · left; rfl
    · left; rfl

/-- Folding `updateStats` over a message list from an arbitrary start:
`count` grows by the number of messages, `nullCount` by the number of
null/absent messages, and `sum`/`sumSq` by the (squared) successfully
converted values, provided the feature's metric type is `"numerical"`. -/
theorem foldl_updateStats_spec (cfg : FeatureConfig) (hm : cfg.metricType = "numerical")
    (msgs : List DynamicMessage) (s : FeatureStats) :
    (msgs.foldl (fun a m => updateStats m cfg a) s).count = s.count + msgs.length ∧
    (msgs.foldl (fun a m => updateStats m cfg a) s).nullCount =
      s.nullCount + msgs.countP (fun m => !HasNonNull m cfg.name) ∧
    (msgs.foldl (fun a m => updateStats m cfg a) s).sum =
      s.sum + (msgs.filterMap (fun m => GetFloat64 m cfg.name)).sum ∧
    (msgs.foldl (fun a m => updateStats m cfg a) s).sumSq =
      s.sumSq + ((msgs.filterMap (fun m => GetFloat64 m cfg.name)).map (fun v => v * v)).sum := by
  induction msgs generalizing s with
  | nil => simp
  | cons m rest ih =>
    by_cases h : HasNonNull m cfg.name
    · cases hv : GetFloat64 m cfg.name with
      | none =>
        rw [List.foldl_cons, updateStats_of_unconvertible m cfg s h hm hv]
        obtain ⟨ihc, ihn, ihs, ihq⟩ := ih { s with count := s.count + 1 }
        refine ⟨?_, ?_, ?_, ?_⟩
        · rw [ihc]; simp only [List.length_cons]; push_cast; ring
        · rw [ihn]; simp [List.countP_cons, h]
        · rw [ihs]; simp [List.filterMap_cons, hv]
        · rw [ihq]; simp [List.filterMap_cons, hv]
      | some v =>
        rw [List.foldl_cons, updateStats_of_num m cfg s h hm v hv]
        obtain ⟨ihc, ihn, ihs, ihq⟩ :=
          ih { s with count := s.count + 1, sum := s.sum + v, sumSq := s.sumSq + v * v }
        refine ⟨?_, ?_, ?_, ?_⟩
        · rw [ihc]; simp only [List.length_cons]; push_cast; ring
        · rw [ihn]; simp [List.countP_cons, h]
        · rw [ihs]; simp [List.filterMap_cons, hv]; ring
        · rw [ihq]; simp [List.filterMap_cons, hv]; ring
    · have hf : HasNonNull m cfg.name = false := by simpa using h
      have hv : GetFloat64 m cfg.name = none :=
        getFloat64_eq_none_of_not_hasNonNull m cfg.name hf
      rw [List.foldl_cons, updateStats_of_null m cfg s hf]
      obtain ⟨ihc, ihn, ihs, ihq⟩ :=
        ih { s with count := s.count + 1, nullCount := s.nullCount + 1 }
      refine ⟨?_, ?_, ?_, ?_⟩
      · rw [ihc]; simp only [List.length_cons]; push_cast; ring
      · rw [ihn]; simp only [List.countP_cons, hf]; push_cast; simp; ring
      · rw [ihs]; simp [List.filterMap_cons, hv]
      · rw [ihq]; simp [List.filterMap_cons, hv]

/-! ## C1: what the ingest accumulators actually count -/

/-- C1 (counterexample): a present, non-null, non-numeric value — here
the string `"abc"` under the monitored field `"f"` — is unconvertible,
yet the ingest step increments only `count`; `nullCount` stays `0`,
contradicting the claim that `nullCount` also counts unconvertible
values. -/
theorem updateStats_unconvertible_counterexample :
    HasNonNull [("f", GoValue.vstr "abc")] "f" = true ∧
    GetFloat64 [("f", GoValue.vstr "abc")] "f" = none ∧
    (updateStats [("f", GoValue.vstr "abc")]
        ⟨"f", "numerical", ⟨none, none, none, none, none⟩⟩ FeatureStats.zero).nullCount = 0 ∧
    (updateStats [("f", GoValue.vstr "abc")]
        ⟨"f", "numerical", ⟨none, none, none, none, none⟩⟩ FeatureStats.zero).count = 1 := by
  refine ⟨rfl, rfl, rfl, rfl⟩

/-- C1 (amended): over any ingest sequence for one (window, feature)
accumulator of a `"numerical"` feature, `count` counts every message,
`nullCount` counts exactly the messages whose field value was null or
absent (an unconvertible present value increments only `count`), and
`sum`/`sumOfSquares` accumulate exactly the successfully-converted
numeric values and their squares. -/
theorem ingest_accumulators_spec (name : String) (th : Thresholds)
    (msgs : List DynamicMessage) :
    (ingestAll ⟨name, "numerical", th⟩ msgs).count = (msgs.length : ℤ) ∧
    (ingestAll ⟨name, "numerical", th⟩ msgs).nullCount =
      (msgs.countP (fun m => !HasNonNull m name) : ℤ) ∧
    (ingestAll ⟨name, "numerical", th⟩ msgs).sum =
      (msgs.filterMap (fun m => GetFloat64 m name)).sum ∧
    (ingestAll ⟨name, "numerical", th⟩ msgs).sumSq =
      ((msgs.filterMap (fun m => GetFloat64 m name)).map (fun v => v * v)).sum := by
  have h := foldl_updateStats_spec ⟨name, "numerical", th⟩ rfl msgs FeatureStats.zero
  unfold ingestAll
  simpa [FeatureStats.zero] using h

/-! ## C8: `nullCount ≤ count` is invariant -/

/-- C8: starting from the zero accumulator, after any ingest sequence
`nullCount ≤ count`; moreover each single ingest step increments `count`
by exactly one and `nullCount` by zero or one, so every `nullCount`
increment is accompanied by a `count` increment in the same step. -/
theorem nullCount_le_count_invariant (cfg : FeatureConfig) (msgs : List DynamicMessage) :
    (ingestAll cfg msgs).nullCount ≤ (ingestAll cfg msgs).count ∧
    (∀ (m : DynamicMessage) (s : FeatureStats),
      (updateStats m cfg s).count = s.count + 1 ∧
      ((updateStats m cfg s).nullCount = s.nullCount ∨
        (updateStats m cfg s).nullCount = s.nullCount + 1)) := by
  refine ⟨?_, fun m s => ⟨updateStats_count m cfg s, updateStats_nullCount_cases m cfg s⟩⟩
  have key : ∀ (l : List DynamicMessage) (s : FeatureStats),
      s.nullCount ≤ s.count →
      (l.foldl (fun a m => updateStats m cfg a) s).nullCount ≤
        (l.foldl (fun a m => updateStats m cfg a) s).count := by
    intro l
    induction l with
    | nil => intro s h; simpa using h
    | cons m rest ih =>
      intro s h
      refine ih (updateStats m cfg s) ?_
      have hc := updateStats_count m cfg s
      rcases updateStats_nullCount_cases m cfg s with hn | hn <;> omega
  exact key msgs FeatureStats.zero (by simp [FeatureStats.zero])

/-! ## C2: flush-time mean/variance -/

/-- C2: `calculateMeanVariance` returns the NaN sentinel for both values
whenever `validCount = count - nullCount ≤ 0`; otherwise it returns
`mean = sum / validCount` and `variance = sumOfSquares / validCount -
mean²`, with any negative computed variance — whether inside `(-1e-9, 0)`
or below `-1e-9` — clamped to `0`. -/
theorem calculateMeanVariance_spec (s : FeatureStats) :
    (s.count - s.nullCount ≤ 0 → calculateMeanVariance s = (none, none)) ∧
    (0 < s.count - s.nullCount →
      calculateMeanVariance s =
        (some (s.sum / ((s.count - s.nullCount : ℤ) : ℚ)),
         some (if s.sumSq / ((s.count - s.nullCount : ℤ) : ℚ) -
                 (s.sum / ((s.count - s.nullCount : ℤ) : ℚ)) *
                   (s.sum / ((s.count - s.nullCount : ℤ) : ℚ)) < 0
               then 0
               else s.sumSq / ((s.count - s.nullCount : ℤ) : ℚ) -
                 (s.sum / ((s.count - s.nullCount : ℤ) : ℚ)) *
                   (s.sum / ((s.count - s.nullCount : ℤ) : ℚ))))) := by
  have hsimp : ∀ x tol : ℚ,
      (if x < 0 ∧ -tol < x then (0 : ℚ) else if x < 0 then 0 else x) =
        (if x < 0 then 0 else x) := by
    intro x tol
    by_cases hx : x < 0
    · by_cases ht : -tol < x <;> simp [hx, ht]
    · simp [hx]
  constructor
  · intro h
    unfold calculateMeanVariance
    simp [h]
  · intro h
    unfold calculateMeanVariance
    rw [if_neg (by omega)]
    dsimp only
    rw [hsimp]

/-- C2 (witness): on `count = 3`, `nullCount = 0`, `sum = 30`,
`sumSq = 308` the result is mean `10`, variance `8/3`; on an all-null
accumulator both are the NaN sentinel. -/
theorem calculateMeanVariance_spec_witness :
    calculateMeanVariance ⟨3, 0, 30, 308⟩ = (some 10, some (8 / 3)) ∧
    calculateMeanVariance ⟨2, 2, 0, 0⟩ = (none, none) := by
  constructor
  · rw [(calculateMeanVariance_spec ⟨3, 0, 30, 308⟩).2 (by norm_num)]
    norm_num
  · exact (calculateMeanVariance_spec ⟨2, 2, 0, 0⟩).1 (by norm_num)

/-! ## C9: field snippets -/

/-- C9: `GetFieldSnippet` returns the `"<missing>"` sentinel for an
absent field; for a present field it returns the `"..."` placeholder
when `maxLength ≤ 0`, the rendering truncated to `maxLength` characters
with `"..."` appended when the rendering is longer than `maxLength`, and
the full rendering otherwise. -/
theorem getFieldSnippet_spec (dm : DynamicMessage) (field : String) (maxLength : ℤ) :
    (lookupField dm field = none → GetFieldSnippet dm field maxLength = "<missing>") ∧
    (∀ v, lookupField dm field = some v →
      (maxLength ≤ 0 → GetFieldSnippet dm field maxLength = "...") ∧
      (0 < maxLength → maxLength < ((goRender v).length : ℤ) →
        GetFieldSnippet dm field maxLength = (goRender v).take maxLength.toNat ++ "...") ∧
      (0 < maxLength → ((goRender v).length : ℤ) ≤ maxLength →
        GetFieldSnippet dm field maxLength = goRender v)) := by
  constructor
  · intro h
    unfold GetFieldSnippet
    rw [h]
  · intro v hv
    refine ⟨?_, ?_, ?_⟩
    · intro hle
      unfold GetFieldSnippet
      rw [hv]
      simp [hle]
    · intro hpos hlong
      unfold GetFieldSnippet
      rw [hv]
      dsimp only
      rw [if_neg (by omega), if_pos hlong]
    · intro hpos hshort
      unfold GetFieldSnippet
      rw [hv]
      dsimp only
      rw [if_neg (by omega), if_neg (by omega)]

/-- C9 (witness): concrete snippets of the message `{"f": "abcdef"}`:
missing field, non-positive budget, truncation at 3, and a fitting
rendering at 10. -/
theorem getFieldSnippet_spec_witness :
    GetFieldSnippet [("f", GoValue.vstr "abcdef")] "g" 5 = "<missing>" ∧
    GetFieldSnippet [("f", GoValue.vstr "abcdef")] "f" 0 = "..." ∧
    GetFieldSnippet [("f", GoValue.vstr "abcdef")] "f" 3 = "abc..." ∧
    GetFieldSnippet [("f", GoValue.vstr "abcdef")] "f" 10 = "abcdef" := by
  refine ⟨?_, ?_, ?_, ?_⟩
  · exact (getFieldSnippet_spec [("f", GoValue.vstr "abcdef")] "g" 5).1 rfl
  · exact ((getFieldSnippet_spec [("f", GoValue.vstr "abcdef")] "f" 0).2
      (GoValue.vstr "abcdef") rfl).1 (by norm_num)
  · have h := ((getFieldSnippet_spec [("f", GoValue.vstr "abcdef")] "f" 3).2
      (GoValue.vstr "abcdef") rfl).2.1 (by norm_num) (by decide)
    rw [h]
    rfl
  · exact ((getFieldSnippet_spec [("f", GoValue.vstr "abcdef")] "f" 10).2
      (GoValue.vstr "abcdef") rfl).2.2 (by norm_num) (by decide)

/-! ## C6: `Pipeline.Run` return value -/

/-- C6 (counterexample): when the shutdown trigger is cancellation,
`Pipeline.Run` returns `nil`, not the cancellation indicator — the
`errors.Is(firstErr, context.Canceled)` branch swallows it. -/
theorem pipelineRun_cancel_counterexample :
    pipelineRun true [] = none ∧
    pipelineRunReturn (RunTrigger.ctxDone GoError.canceled) = none ∧
    (none : Option GoError) ≠ some GoError.canceled := by
  refine ⟨rfl, rfl, by simp⟩

/-- C6 (amended): `Pipeline.Run` returns `nil` when everything finishes
cleanly; it also returns `nil` — not the cancellation indicator — when
the shutdown trigger was cancellation; otherwise it returns the first
fatal error delivered on the error channel (already wrapped by its stage
wrapper with the stage's sentinel), ignoring every later channel entry;
a stage whose component returned `nil` or a cancellation reports nothing
onto the channel. -/
theorem pipelineRun_spec :
    (pipelineRun false [] = none) ∧
    (pipelineRun true [] = none) ∧
    (∀ (stageName : String) (inner : GoError) (rest : List GoError),
      errIs inner GoError.canceled = false →
      stageReport (GoError.base stageName) (some inner) =
          some (GoError.wrap (GoError.base stageName) inner) ∧
      pipelineRun false (GoError.wrap (GoError.base stageName) inner :: rest) =
          some (GoError.wrap (GoError.base stageName) inner)) ∧
    (∀ stageTag : GoError,
      stageReport stageTag (some GoError.canceled) = none ∧
      stageReport stageTag none = none) := by
  refine ⟨rfl, rfl, ?_, ?_⟩
  · intro stageName inner rest h
    have hw : errIs (GoError.wrap (GoError.base stageName) inner) GoError.canceled = false := by
      simp [errIs, h]
    constructor
    · unfold stageReport
      dsimp only
      rw [h]
      simp
    · unfold pipelineRun pipelineRunReturn
      simp [hw]
  · intro stageTag
    constructor
    · unfold stageReport
      simp [errIs]
    · rfl

/-- C6 (witness): a consumer fetch failure, wrapped by the stage wrapper
with the `ErrConsumerRunFailed` sentinel, is returned as-is by `Run`,
and a second error queued behind it is discarded. -/
theorem pipelineRun_spec_witness :
    pipelineRun false
        [GoError.wrap (GoError.base "consumer component failed") (GoError.base "kafka fetch"),
         GoError.wrap (GoError.base "alerter component failed") (GoError.base "other")] =
      some (GoError.wrap (GoError.base "consumer component failed")
        (GoError.base "kafka fetch")) :=
  (pipelineRun_spec.2.2.1 "consumer component failed" (GoError.base "kafka fetch")
    [GoError.wrap (GoError.base "alerter component failed") (GoError.base "other")]
    (by decide)).2

/-! ## C7: lossy non-blocking emission under backpressure -/

theorem trySend_full (cap : ℕ) (q : List AggregationResult) (r : AggregationResult)
    (h : cap ≤ q.length) : trySend cap q r = (q, false) := by
  unfold trySend
  rw [if_neg (by omega)]

theorem foldl_trySend_full (cap : ℕ) (q : List AggregationResult)
    (rs : List AggregationResult) (h : cap ≤ q.length) :
    rs.foldl (fun acc r => (trySend cap acc r).1) q = q := by
  induction rs with
  | nil => rfl
  | cons r rest ih =>
    rw [List.foldl_cons, trySend_full cap q r h]
    exact ih

/-- C7: a flush with the results channel at capacity drops every produced
result — the buffer is left exactly as it was, so nothing new is ever
delivered downstream — while the flush itself runs to completion and the
completed windows are still removed from (and only from) the live
state. -/
theorem flush_backpressure_spec (cap : ℕ) (q : List AggregationResult)
    (st : CalcState) (cutoff : ℤ) (hfull : cap ≤ q.length) :
    (flushWindowsQ cap cutoff st q).2 = q ∧
    (flushWindowsQ cap cutoff st q).1 = (flushWindows cutoff st).1 := by
  constructor
  · unfold flushWindowsQ
    exact foldl_trySend_full cap q (flushWindows cutoff st).2 hfull
  · rfl

/-- C7 (witness): with channel capacity `1` already holding one result,
flushing the single live window at its end instant drops its produced
result and removes the window. -/
theorem flush_backpressure_spec_witness :
    (flushWindowsQ 1 10
        [(10, ⟨0, 10, [("f", ⟨2, 1, 5, 25⟩)]⟩)]
        [{ featureName := "g", windowStart := 0, windowEnd := 10, count := 1,
           nullCount := 0, mean := some 1, variance := some 0 }]).2 =
      [{ featureName := "g", windowStart := 0, windowEnd := 10, count := 1,
         nullCount := 0, mean := some 1, variance := some 0 }] ∧
    (flushWindowsQ 1 10
        [(10, ⟨0, 10, [("f", ⟨2, 1, 5, 25⟩)]⟩)]
        [{ featureName := "g", windowStart := 0, windowEnd := 10, count := 1,
           nullCount := 0, mean := some 1, variance := some 0 }]).1 = [] := by
  have h := flush_backpressure_spec 1
    [{ featureName := "g", windowStart := 0, windowEnd := 10, count := 1,
       nullCount := 0, mean := some 1, variance := some 0 }]
    [(10, ⟨0, 10, [("f", ⟨2, 1, 5, 25⟩)]⟩)] 10 (by simp)
  exact ⟨h.1, by rw [h.2]; rfl⟩

/-! ## Threshold-check membership lemmas -/

theorem mem_checkNullRate (x : Violation) (nr th : Option ℚ) :
    x ∈ checkNullRate nr th ↔
      x = ("null_rate", ">") ∧ ∃ b v, th = some b ∧ nr = some v ∧ b < v := by
  rcases th with _ | b
  · simp [checkNullRate]
  · rcases nr with _ | v
    · simp [checkNullRate]
    · by_cases hbv : b < v <;> simp [checkNullRate, hbv]

theorem mem_checkMean (x : Violation) (m a b : Option ℚ) :
    x ∈ checkMean m a b ↔
      (x = ("mean", "<") ∧ ∃ bb mm, a = some bb ∧ m = some mm ∧ mm < bb) ∨
      (x = ("mean", ">") ∧ ∃ bb mm, b = some bb ∧ m = some mm ∧ bb < mm) := by
  rcases m with _ | mm
  · simp [checkMean]
  · rcases a with _ | bb <;> rcases b with _ | cc
    · simp [checkMean]
    · by_cases h : cc < mm <;> simp [checkMean, h]
    · by_cases h : mm < bb <;> simp [checkMean, h]
    · by_cases h1 : mm < bb <;> by_cases h2 : cc < mm <;> simp [checkMean, h1, h2]

theorem mem_checkStdDev (x : Violation) (sd a b : Option ℚ) :
    x ∈ checkStdDev sd a b ↔
      (x = ("stddev", "<") ∧ ∃ bb vv, a = some bb ∧ sd = some vv ∧ vv < bb) ∨
      (x = ("stddev", ">") ∧ ∃ bb vv, b = some bb ∧ sd = some vv ∧ bb < vv) := by
  rcases sd with _ | vv
  · simp [checkStdDev]
  · rcases a with _ | bb <;> rcases b with _ | cc
    · simp [checkStdDev]
    · by_cases h : cc < vv <;> simp [checkStdDev, h]
    · by_cases h : vv < bb <;> simp [checkStdDev, h]
    · by_cases h1 : vv < bb <;> by_cases h2 : cc < vv <;> simp [checkStdDev, h1, h2]

/-! ## C5: which violations the evaluator reports -/

/-- C5: for a result whose feature is unconfigured, `processResult` does
nothing at all; for a configured feature the evaluator computes
`nullRate = nullCount / count` only when `count > 0` and
`stdDev = sqrt variance` only when the variance is a non-NaN
non-negative number, and a violation with a given label pair is reported
iff the corresponding bound is configured, the metric is computable, and
the comparison holds — the five checks being mutually independent. -/
theorem alerter_checks_spec (features : List FeatureConfig) (sq : ℚ → ℚ)
    (r : AggregationResult) :
    (featureLookup features r.featureName = none → processResult features sq r = none) ∧
    (∀ cfg, featureLookup features r.featureName = some cfg →
      ∃ g vs, processResult features sq r = some (g, vs) ∧
        ((("null_rate", ">") ∈ vs) ↔
          ∃ b, cfg.thresholds.nullRate = some b ∧ 0 < r.count ∧
            b < (r.nullCount : ℚ) / (r.count : ℚ)) ∧
        ((("mean", "<") ∈ vs) ↔
          ∃ b m, cfg.thresholds.meanMin = some b ∧ r.mean = some m ∧ m < b) ∧
        ((("mean", ">") ∈ vs) ↔
          ∃ b m, cfg.thresholds.meanMax = some b ∧ r.mean = some m ∧ b < m) ∧
        ((("stddev", "<") ∈ vs) ↔
          ∃ b v, cfg.thresholds.stdDevMin = some b ∧ r.variance = some v ∧ 0 ≤ v ∧ sq v < b) ∧
        ((("stddev", ">") ∈ vs) ↔
          ∃ b v, cfg.thresholds.stdDevMax = some b ∧ r.variance = some v ∧ 0 ≤ v ∧ b < sq v)) := by
  have labMean : ∀ (x : Violation) (m a b : Option ℚ), x ∈ checkMean m a b →
      x = ("mean", "<") ∨ x = ("mean", ">") := by
    intro x m a b hx
    rcases (mem_checkMean x m a b).1 hx with ⟨h, -⟩ | ⟨h, -⟩
    · exact Or.inl h
    · exact Or.inr h
  have labStd : ∀ (x : Violation) (sd a b : Option ℚ), x ∈ checkStdDev sd a b →
      x = ("stddev", "<") ∨ x = ("stddev", ">") := by
    intro x sd a b hx
    rcases (mem_checkStdDev x sd a b).1 hx with ⟨h, -⟩ | ⟨h, -⟩
    · exact Or.inl h
    · exact Or.inr h
  have labNr : ∀ (x : Violation) (nr th : Option ℚ), x ∈ checkNullRate nr th →
      x = ("null_rate", ">") := by
    intro x nr th hx
    exact ((mem_checkNullRate x nr th).1 hx).1
  constructor
  · intro h
    unfold processResult
    rw [h]
  · intro cfg hcfg
    unfold processResult
    rw [hcfg]
    dsimp only
    refine ⟨_, _, rfl, ?_, ?_, ?_, ?_, ?_⟩
    · constructor
      · intro hmem
        rcases List.mem_append.1 hmem with hab | hc
        · rcases List.mem_append.1 hab with ha | hb
          · obtain ⟨-, b, v, hth, hval, hlt⟩ := (mem_checkNullRate _ _ _).1 ha
            by_cases hcnt : 0 < r.count
            · rw [if_pos hcnt] at hval
              refine ⟨b, hth, hcnt, ?_⟩
              rw [Option.some_inj.mp hval]
              exact hlt
            · rw [if_neg hcnt] at hval
              exact absurd hval (by simp)
          · rcases labMean _ _ _ _ hb with h | h <;> exact absurd h (by decide)
        · rcases labStd _ _ _ _ hc with h | h <;> exact absurd h (by decide)
      · rintro ⟨b, hth, hcnt, hlt⟩
        refine List.mem_append.2 (Or.inl (List.mem_append.2 (Or.inl ?_)))
        exact (mem_checkNullRate _ _ _).2 ⟨rfl, b, _, hth, by rw [if_pos hcnt], hlt⟩
    · constructor
      · intro hmem
        rcases List.mem_append.1 hmem with hab | hc
        · rcases List.mem_append.1 hab with ha | hb
          · exact absurd (labNr _ _ _ ha) (by decide)
          · rcases (mem_checkMean _ _ _ _).1 hb with ⟨-, bb, mm, hbnd, hm, hlt⟩ | ⟨h1, -⟩
            · exact ⟨bb, mm, hbnd, hm, hlt⟩
            · exact absurd h1 (by decide)
        · rcases labStd _ _ _ _ hc with h | h <;> exact absurd h (by decide)
      · rintro ⟨b, m, hbnd, hm, hlt⟩
        refine List.mem_append.2 (Or.inl (List.mem_append.2 (Or.inr ?_)))
        exact (mem_checkMean _ _ _ _).2 (Or.inl ⟨rfl, b, m, hbnd, hm, hlt⟩)
    · constructor
      · intro hmem
        rcases List.mem_append.1 hmem with hab | hc
        · rcases List.mem_append.1 hab with ha | hb
          · exact absurd (labNr _ _ _ ha) (by decide)
          · rcases (mem_checkMean _ _ _ _).1 hb with ⟨h1, -⟩ | ⟨-, bb, mm, hbnd, hm, hlt⟩
            · exact absurd h1 (by decide)
            · exact ⟨bb, mm, hbnd, hm, hlt⟩
        · rcases labStd _ _ _ _ hc with h | h <;> exact absurd h (by decide)
      · rintro ⟨b, m, hbnd, hm, hlt⟩
        refine List.mem_append.2 (Or.inl (List.mem_append.2 (Or.inr ?_)))
        exact (mem_checkMean _ _ _ _).2 (Or.inr ⟨rfl, b, m, hbnd, hm, hlt⟩)
    · constructor
      · intro hmem
        rcases List.mem_append.1 hmem with hab | hc
        · rcases List.mem_append.1 hab with ha | hb
          · exact absurd (labNr _ _ _ ha) (by decide)
          · rcases labMean _ _ _ _ hb with h | h <;> exact absurd h (by decide)
        · rcases (mem_checkStdDev _ _ _ _).1 hc with ⟨-, bb, vv, hbnd, hsd, hlt⟩ | ⟨h1, -⟩
          · cases hv : r.variance with
            | none =>
              rw [hv] at hsd
              exact absurd hsd (by simp)
            | some v0 =>
              rw [hv] at hsd
              dsimp only at hsd
              by_cases hnn : 0 ≤ v0
              · rw [if_pos hnn] at hsd
                refine ⟨bb, v0, hbnd, rfl, hnn, ?_⟩
                rw [Option.some_inj.mp hsd]
                exact hlt
              · rw [if_neg hnn] at hsd
                exact absurd hsd (by simp)
          · exact absurd h1 (by decide)
      · rintro ⟨b, v, hbnd, hv, hnn, hlt⟩
        refine List.mem_append.2 (Or.inr ?_)
        refine (mem_checkStdDev _ _ _ _).2 (Or.inl ⟨rfl, b, sq v, hbnd, ?_, hlt⟩)
        rw [hv]
        dsimp only
        rw [if_pos hnn]
    · constructor
      · intro hmem
        rcases List.mem_append.1 hmem with hab | hc
        · rcases List.mem_append.1 hab with ha | hb
          · exact absurd (labNr _ _ _ ha) (by decide)
          · rcases labMean _ _ _ _ hb with h | h <;> exact absurd h (by decide)
        · rcases (mem_checkStdDev _ _ _ _).1 hc with ⟨h1, -⟩ | ⟨-, bb, vv, hbnd, hsd, hlt⟩
          · exact absurd h1 (by decide)
          · cases hv : r.variance with
            | none =>
              rw [hv] at hsd
              exact absurd hsd (by simp)
            | some v0 =>
              rw [hv] at hsd
              dsimp only at hsd
              by_cases hnn : 0 ≤ v0
              · rw [if_pos hnn] at hsd
                refine ⟨bb, v0, hbnd, rfl, hnn, ?_⟩
                rw [Option.some_inj.mp hsd]
                exact hlt
              · rw [if_neg hnn] at hsd
                exact absurd hsd (by simp)
      · rintro ⟨b, v, hbnd, hv, hnn, hlt⟩
        refine List.mem_append.2 (Or.inr ?_)
        refine (mem_checkStdDev _ _ _ _).2 (Or.inr ⟨rfl, b, sq v, hbnd, ?_, hlt⟩)
        rw [hv]
        dsimp only
        rw [if_pos hnn]

/-- C5 (witness): with `maxNullRate = 1/10` configured for `"f"`, a
window with `count = 20`, `nullCount = 5` (null rate `1/4`) yields a
null-rate violation. -/
theorem alerter_checks_spec_witness :
    ∃ g vs,
      processResult [⟨"f", "numerical", ⟨some (1 / 10), none, none, none, none⟩⟩] id
          { featureName := "f", windowStart := 0, windowEnd := 60, count := 20,
            nullCount := 5, mean := some 2, variance := some 1 } = some (g, vs) ∧
        ("null_rate", ">") ∈ vs := by
  obtain ⟨g, vs, heq, hnr, -, -, -, -⟩ :=
    (alerter_checks_spec [⟨"f", "numerical", ⟨some (1 / 10), none, none, none, none⟩⟩] id
      { featureName := "f", windowStart := 0, windowEnd := 60, count := 20,
        nullCount := 5, mean := some 2, variance := some 1 }).2
      ⟨"f", "numerical", ⟨some (1 / 10), none, none, none, none⟩⟩ rfl
  exact ⟨g, vs, heq, hnr.mpr ⟨1 / 10, rfl, by norm_num, by norm_num⟩⟩

/-! ## C10: the evaluator always writes all five gauges -/

/-- C10: for a configured feature the evaluator writes all five observer
gauges: `count` and `nullCount` always carry the result's counters, and
each of null rate, mean and standard deviation carries its computed
value when computable and `0` when it is the NaN sentinel. -/
theorem alerter_gauges_spec (features : List FeatureConfig) (sq : ℚ → ℚ)
    (r : AggregationResult) (cfg : FeatureConfig)
    (hcfg : featureLookup features r.featureName = some cfg) :
    ∃ g vs, processResult features sq r = some (g, vs) ∧
      g.count = (r.count : ℚ) ∧
      g.nullCount = (r.nullCount : ℚ) ∧
      (0 < r.count → g.nullRate = (r.nullCount : ℚ) / (r.count : ℚ)) ∧
      (r.count ≤ 0 → g.nullRate = 0) ∧
      (∀ m, r.mean = some m → g.mean = m) ∧
      (r.mean = none → g.mean = 0) ∧
      (∀ v, r.variance = some v → 0 ≤ v → g.stdDev = sq v) ∧
      (∀ v, r.variance = some v → v < 0 → g.stdDev = 0) ∧
      (r.variance = none → g.stdDev = 0) := by
  unfold processResult
  rw [hcfg]
  dsimp only
  refine ⟨_, _, rfl, rfl, rfl, ?_, ?_, ?_, ?_, ?_, ?_, ?_⟩
  · intro hc
    simp [if_pos hc]
  · intro hc
    rw [if_neg (by omega)]
    rfl
  · intro m hm
    rw [hm]
    rfl
  · intro hm
    rw [hm]
    rfl
  · intro v hv hnn
    rw [hv]
    dsimp only
    rw [if_pos hnn]
    rfl
  · intro v hv hneg
    rw [hv]
    dsimp only
    rw [if_neg (not_le.mpr hneg)]
    rfl
  · intro hv
    rw [hv]
    rfl

/-- C10 (witness): a configured feature whose window was all nulls
(`count = 0` never happens for an emitted result, but `mean`/`variance`
NaN and a zero count exercise every fallback): all of null rate, mean
and stddev gauges are written as `0`. -/
theorem alerter_gauges_spec_witness :
    ∃ g vs,
      processResult [⟨"f", "numerical", ⟨none, none, none, none, none⟩⟩] id
          { featureName := "f", windowStart := 0, windowEnd := 60, count := 0,
            nullCount := 0, mean := none, variance := none } = some (g, vs) ∧
        g.nullRate = 0 ∧ g.mean = 0 ∧ g.stdDev = 0 := by
  obtain ⟨g, vs, heq, -, -, -, hnr0, -, hm0, -, -, hsd0⟩ :=
    alerter_gauges_spec [⟨"f", "numerical", ⟨none, none, none, none, none⟩⟩] id
      { featureName := "f", windowStart := 0, windowEnd := 60, count := 0,
        nullCount := 0, mean := none, variance := none }
      ⟨"f", "numerical", ⟨none, none, none, none, none⟩⟩ rfl
  exact ⟨g, vs, heq, hnr0 (by norm_num), hm0 rfl, hsd0 rfl⟩

/-! ## Flush partition and counting lemmas -/

theorem collect_foldl_aux (cutoff : ℤ) (st : CalcState) (a b : CalcState) :
    st.foldl
        (fun acc p =>
          if p.1 ≤ cutoff then (acc.1 ++ [p], acc.2) else (acc.1, acc.2 ++ [p]))
        (a, b) =
      (a ++ st.filter (fun p => decide (p.1 ≤ cutoff)),
       b ++ st.filter (fun p => !decide (p.1 ≤ cutoff))) := by
  induction st generalizing a b with
  | nil => simp
  | cons p t ih =>
    by_cases h : p.1 ≤ cutoff
    · rw [List.foldl_cons, if_pos h, ih]
      simp [List.filter_cons, h]
    · rw [List.foldl_cons, if_neg h, ih]
      simp [List.filter_cons, h]

/-- The Go loop over the window map is a partition: completed windows are
exactly those with `end ≤ cutoff`, retained ones exactly the others. -/
theorem collectAndRemove_eq_partition (cutoff : ℤ) (st : CalcState) :
    collectAndRemoveCompletedWindows cutoff st =
      (st.filter (fun p => decide (p.1 ≤ cutoff)),
       st.filter (fun p => !decide (p.1 ≤ cutoff))) := by
  unfold collectAndRemoveCompletedWindows
  simpa using collect_foldl_aux cutoff st [] []

theorem windowResults_windowEnd (k : ℤ) (w : WindowInfo) (r : AggregationResult)
    (hr : r ∈ windowResults k w) : r.windowEnd = k := by
  unfold windowResults at hr
  obtain ⟨p, hp, hpr⟩ := List.mem_filterMap.1 hr
  by_cases h : p.2.count = 0
  · rw [if_pos h] at hpr
    exact absurd hpr (by simp)
  · rw [if_neg h] at hpr
    obtain rfl := Option.some_inj.mp hpr
    rfl

theorem windowResults_featureName_mem (k : ℤ) (w : WindowInfo) (r : AggregationResult)
    (hr : r ∈ windowResults k w) : r.featureName ∈ w.features.map Prod.fst := by
  unfold windowResults at hr
  obtain ⟨p, hp, hpr⟩ := List.mem_filterMap.1 hr
  by_cases h : p.2.count = 0
  · rw [if_pos h] at hpr
    exact absurd hpr (by simp)
  · rw [if_neg h] at hpr
    obtain rfl := Option.some_inj.mp hpr
    exact List.mem_map.2 ⟨p, hp, rfl⟩

theorem countP_windowResults_ne (we k : ℤ) (fn : String) (w : WindowInfo) (hne : k ≠ we) :
    (windowResults k w).countP
        (fun r => decide (r.windowEnd = we ∧ r.featureName = fn)) = 0 := by
  rw [List.countP_eq_zero]
  intro r hr
  have hk := windowResults_windowEnd k w r hr
  simp only [decide_eq_true_eq]
  rintro ⟨hwe, -⟩
  exact hne (hk.symm.trans hwe)

theorem countP_windowResults_zero_of_not_mem (we ws wend : ℤ) (fn : String)
    (l : List (String × FeatureStats)) (h : fn ∉ l.map Prod.fst) :
    (windowResults we ⟨ws, wend, l⟩).countP
        (fun r => decide (r.windowEnd = we ∧ r.featureName = fn)) = 0 := by
  rw [List.countP_eq_zero]
  intro r hr
  have hm := windowResults_featureName_mem we ⟨ws, wend, l⟩ r hr
  simp only [decide_eq_true_eq]
  rintro ⟨-, hfn⟩
  rw [hfn] at hm
  exact h hm

theorem countP_windowResults_eq (we ws wend : ℤ) (fn : String) (stats : FeatureStats) :
    ∀ l : List (String × FeatureStats), (fn, stats) ∈ l → (l.map Prod.fst).Nodup →
      (windowResults we ⟨ws, wend, l⟩).countP
          (fun r => decide (r.windowEnd = we ∧ r.featureName = fn)) =
        if stats.count = 0 then 0 else 1 := by
  intro l
  induction l with
  | nil =>
    intro h
    simp at h
  | cons p t ih =>
    intro hmem hnd
    have hnd' : (t.map Prod.fst).Nodup := (List.nodup_cons.1 (by simpa using hnd)).2
    have hhead : p.1 ∉ t.map Prod.fst := (List.nodup_cons.1 (by simpa using hnd)).1
    by_cases hkey : p.1 = fn
    · have hp : p = (fn, stats) := by
        rcases List.mem_cons.1 hmem with heq | hmem'
        · exact heq.symm
        · exact absurd (List.mem_map.2 ⟨(fn, stats), hmem', rfl⟩) (by rwa [hkey] at hhead)
      subst hp
      have htail : (windowResults we ⟨ws, wend, t⟩).countP
          (fun r => decide (r.windowEnd = we ∧ r.featureName = fn)) = 0 :=
        countP_windowResults_zero_of_not_mem we ws wend fn t (by simpa using hhead)
      unfold windowResults at htail ⊢
      dsimp only at htail ⊢
      rw [List.filterMap_cons]
      by_cases h0 : stats.count = 0
      · rw [if_pos (by simpa using h0)]
        rw [htail, if_pos h0]
      · rw [if_neg (by simpa using h0)]
        rw [List.countP_cons, htail, if_neg h0]
        simp
    · have hmem' : (fn, stats) ∈ t := by
        rcases List.mem_cons.1 hmem with heq | hmem'
        · exact absurd (congrArg Prod.fst heq).symm hkey
        · exact hmem'
      have htail := ih hmem' hnd'
      unfold windowResults at htail ⊢
      dsimp only at htail ⊢
      rw [List.filterMap_cons]
      by_cases h0 : p.2.count = 0
      · rw [if_pos (by simpa using h0)]
        exact htail
      · rw [if_neg (by simpa using h0)]
        rw [List.countP_cons, htail]
        simp [hkey]

theorem countP_flatMap_zero_of_no_key (we : ℤ) (fn : String) (t : CalcState)
    (h : ∀ q ∈ t, q.1 ≠ we) :
    ((t.flatMap (fun q => windowResults q.1 q.2)).countP
        (fun r => decide (r.windowEnd = we ∧ r.featureName = fn))) = 0 := by
  rw [List.countP_eq_zero]
  intro r hr
  obtain ⟨q, hq, hrq⟩ := List.mem_flatMap.1 hr
  have hk := windowResults_windowEnd q.1 q.2 r hrq
  simp only [decide_eq_true_eq]
  rintro ⟨hwe, -⟩
  exact h q hq (hk.symm.trans hwe)

theorem countP_completed (we : ℤ) (fn : String) (stats : FeatureStats) (w : WindowInfo) :
    ∀ l : CalcState, (l.map Prod.fst).Nodup → (we, w) ∈ l →
      (fn, stats) ∈ w.features → (w.features.map Prod.fst).Nodup →
      ((l.flatMap (fun q => windowResults q.1 q.2)).countP
          (fun r => decide (r.windowEnd = we ∧ r.featureName = fn))) =
        if stats.count = 0 then 0 else 1 := by
  intro l
  induction l with
  | nil =>
    intro _ h
    simp at h
  | cons q t ih =>
    intro hnd hmem hfm hfnd
    have hnd' : (t.map Prod.fst).Nodup := (List.nodup_cons.1 (by simpa using hnd)).2
    have hhead : q.1 ∉ t.map Prod.fst := (List.nodup_cons.1 (by simpa using hnd)).1
    rw [List.flatMap_cons, List.countP_append]
    rcases List.mem_cons.1 hmem with heq | hmem'
    · obtain rfl := heq.symm
      have htail : ((t.flatMap (fun q => windowResults q.1 q.2)).countP
          (fun r => decide (r.windowEnd = we ∧ r.featureName = fn))) = 0 := by
        refine countP_flatMap_zero_of_no_key we fn t (fun q' hq' hcontra => ?_)
        exact hhead (List.mem_map.2 ⟨q', hq', hcontra⟩)
      obtain ⟨ws, wend, fl⟩ := w
      rw [countP_windowResults_eq we ws wend fn stats fl hfm (by simpa using hfnd), htail]
      omega
    · have hq1 : q.1 ≠ we := by
        intro hcontra
        exact hhead (hcontra ▸ List.mem_map.2 ⟨(we, w), hmem', rfl⟩)
      rw [countP_windowResults_ne we q.1 fn q.2 hq1]
      rw [ih hnd' hmem' hfm hfnd]
      omega

/-! ## C3: what one flush removes and emits -/

/-- C3: `flushWindows cutoff` retains exactly the windows whose end is
after the cutoff, each with its state unchanged (so it removes exactly
those with `end ≤ cutoff`), and the produced results contain exactly one
`AggregationResult` for a (window, feature) pair of a removed window
whose feature `count` is nonzero, and none for a pair with zero count or
a retained window. -/
theorem flushWindows_spec (st : CalcState) (cutoff we : ℤ) (w : WindowInfo)
    (fn : String) (stats : FeatureStats)
    (hkeys : (st.map Prod.fst).Nodup)
    (hwin : (we, w) ∈ st)
    (hfeat : (fn, stats) ∈ w.features)
    (hfkeys : (w.features.map Prod.fst).Nodup) :
    (∀ p : ℤ × WindowInfo, p ∈ (flushWindows cutoff st).1 ↔ p ∈ st ∧ cutoff < p.1) ∧
    ((flushWindows cutoff st).2.countP
        (fun r => decide (r.windowEnd = we ∧ r.featureName = fn)) =
      if we ≤ cutoff ∧ stats.count ≠ 0 then 1 else 0) := by
  have hpart := collectAndRemove_eq_partition cutoff st
  constructor
  · intro p
    unfold flushWindows
    rw [hpart]
    dsimp only
    rw [List.mem_filter]
    constructor
    · rintro ⟨hp, hdec⟩
      refine ⟨hp, ?_⟩
      simp only [Bool.not_eq_true', decide_eq_false_iff_not, not_le] at hdec
      exact hdec
    · rintro ⟨hp, hlt⟩
      refine ⟨hp, ?_⟩
      simp only [Bool.not_eq_true', decide_eq_false_iff_not, not_le]
      exact hlt
  · unfold flushWindows
    rw [hpart]
    dsimp only
    have hsubl : ((st.filter (fun p => decide (p.1 ≤ cutoff))).map Prod.fst).Sublist
        (st.map Prod.fst) := (List.filter_sublist st).map Prod.fst
    have hcnd : ((st.filter (fun p => decide (p.1 ≤ cutoff))).map Prod.fst).Nodup :=
      hkeys.sublist hsubl
    by_cases hle : we ≤ cutoff
    · have hwc : (we, w) ∈ st.filter (fun p => decide (p.1 ≤ cutoff)) :=
        List.mem_filter.2 ⟨hwin, by simpa using hle⟩
      rw [countP_completed we fn stats w _ hcnd hwc hfeat hfkeys]
      by_cases h0 : stats.count = 0 <;> simp [h0, hle]
    · have hnk : ∀ q ∈ st.filter (fun p => decide (p.1 ≤ cutoff)), q.1 ≠ we := by
        intro q hq hcontra
        have := (List.mem_filter.1 hq).2
        rw [hcontra] at this
        simp only [decide_eq_true_eq] at this
        exact hle this
      rw [countP_flatMap_zero_of_no_key we fn _ hnk]
      simp [hle]

/-- C3 (witness): flushing at cutoff `10` a state holding window `10`
(feature `"f"` with `count = 2`, feature `"g"` with `count = 0`) and
window `20`: window `20` is retained and window `10` removed, exactly
one result for `(10, "f")` is produced, and none for the empty `(10,
"g")`. -/
theorem flushWindows_spec_witness :
    ((flushWindows 10 [(10, ⟨0, 10, [("f", ⟨2, 1, 5, 25⟩), ("g", ⟨0, 0, 0, 0⟩)]⟩),
        (20, ⟨10, 20, [("f", ⟨1, 0, 3, 9⟩)]⟩)]).2.countP
      (fun r => decide (r.windowEnd = 10 ∧ r.featureName = "f")) = 1) ∧
    ((flushWindows 10 [(10, ⟨0, 10, [("f", ⟨2, 1, 5, 25⟩), ("g", ⟨0, 0, 0, 0⟩)]⟩),
        (20, ⟨10, 20, [("f", ⟨1, 0, 3, 9⟩)]⟩)]).2.countP
      (fun r => decide (r.windowEnd = 10 ∧ r.featureName = "g")) = 0) ∧
    ((20, (⟨10, 20, [("f", ⟨1, 0, 3, 9⟩)]⟩ : WindowInfo)) ∈
      (flushWindows 10 [(10, ⟨0, 10, [("f", ⟨2, 1, 5, 25⟩), ("g", ⟨0, 0, 0, 0⟩)]⟩),
        (20, ⟨10, 20, [("f", ⟨1, 0, 3, 9⟩)]⟩)]).1) ∧
    ((10, (⟨0, 10, [("f", ⟨2, 1, 5, 25⟩), ("g", ⟨0, 0, 0, 0⟩)]⟩ : WindowInfo)) ∉
      (flushWindows 10 [(10, ⟨0, 10, [("f", ⟨2, 1, 5, 25⟩), ("g", ⟨0, 0, 0, 0⟩)]⟩),
        (20, ⟨10, 20, [("f", ⟨1, 0, 3, 9⟩)]⟩)]).1) := by
  have hf := flushWindows_spec
    [(10, ⟨0, 10, [("f", ⟨2, 1, 5, 25⟩), ("g", ⟨0, 0, 0, 0⟩)]⟩),
     (20, ⟨10, 20, [("f", ⟨1, 0, 3, 9⟩)]⟩)] 10 10
    ⟨0, 10, [("f", ⟨2, 1, 5, 25⟩), ("g", ⟨0, 0, 0, 0⟩)]⟩ "f" ⟨2, 1, 5, 25⟩
    (by decide) (by simp) (by simp) (by decide)
  have hg := flushWindows_spec
    [(10, ⟨0, 10, [("f", ⟨2, 1, 5, 25⟩), ("g", ⟨0, 0, 0, 0⟩)]⟩),
     (20, ⟨10, 20, [("f", ⟨1, 0, 3, 9⟩)]⟩)] 10 10
    ⟨0, 10, [("f", ⟨2, 1, 5, 25⟩), ("g", ⟨0, 0, 0, 0⟩)]⟩ "g" ⟨0, 0, 0, 0⟩
    (by decide) (by simp) (by simp) (by decide)
  refine ⟨?_, ?_, ?_, ?_⟩
  · rw [hf.2]
    norm_num
  · rw [hg.2]
    norm_num
  · exact (hf.1 _).2 ⟨by simp, by norm_num⟩
  · intro hmem
    have := ((hf.1 _).1 hmem).2
    norm_num at this

/-! ## C4: a flushed window is never re-emitted -/

theorem lt_windowEndOf (d t : ℤ) (hd : 0 < d) : t < windowEndOf d t := by
  unfold windowEndOf truncateTime
  have h1 : t.emod d < d := Int.emod_lt_of_pos t hd
  have h2 : 0 ≤ t.emod d := Int.emod_nonneg t hd.ne'
  omega

theorem mem_assocUpdate_keys {K V : Type} [DecidableEq K] (k : K) (f : V → V) (dflt : V) :
    ∀ (l : List (K × V)) (p : K × V), p ∈ assocUpdate k f dflt l →
      p.1 = k ∨ p.1 ∈ l.map Prod.fst := by
  intro l
  induction l with
  | nil =>
    intro p hp
    unfold assocUpdate at hp
    rcases List.mem_singleton.1 hp with rfl
    exact Or.inl rfl
  | cons q t ih =>
    intro p hp
    obtain ⟨k', v⟩ := q
    unfold assocUpdate at hp
    by_cases h : k' = k
    · rw [if_pos h] at hp
      rcases List.mem_cons.1 hp with rfl | hp'
      · exact Or.inl h
      · exact Or.inr (List.mem_map.2 ⟨p, List.mem_cons_of_mem _ hp', rfl⟩)
    · rw [if_neg h] at hp
      rcases List.mem_cons.1 hp with rfl | hp'
      · exact Or.inr (by simp)
      · rcases ih p hp' with hk | hk
        · exact Or.inl hk
        · exact Or.inr (by simpa using Or.inr hk)

theorem updOne_keys (d : ℤ) (msg : DynamicMessage) (cfg : FeatureConfig) (we T : ℤ)
    (st : CalcState) (hwe : T < we) (hst : ∀ p ∈ st, T < p.1) :
    ∀ p ∈ updOne d msg cfg we st, T < p.1 := by
  intro p hp
  rcases mem_assocUpdate_keys we _ _ st p hp with hk | hk
  · rw [hk]
    exact hwe
  · obtain ⟨q, hq, hq1⟩ := List.mem_map.1 hk
    exact hq1 ▸ hst q hq

theorem processMessage_keys (d : ℤ) (msg : DynamicMessage) (t T : ℤ)
    (hd : 0 < d) (ht : T ≤ t) :
    ∀ (cfgs : List FeatureConfig) (st : CalcState),
      (∀ p ∈ st, T < p.1) → ∀ p ∈ processMessage d cfgs msg t st, T < p.1 := by
  have hwe : T < windowEndOf d t := lt_of_le_of_lt ht (lt_windowEndOf d t hd)
  intro cfgs
  induction cfgs with
  | nil =>
    intro st hst
    simpa [processMessage] using hst
  | cons c cs ih =>
    intro st hst
    have hstep : processMessage d (c :: cs) msg t st =
        processMessage d cs msg t (updOne d msg c (windowEndOf d t) st) := rfl
    rw [hstep]
    exact ih _ (updOne_keys d msg c (windowEndOf d t) T st hwe hst)

theorem flushWindows_retained_keys (cutoff T : ℤ) (st : CalcState)
    (hst : ∀ p ∈ st, T < p.1) : ∀ p ∈ (flushWindows cutoff st).1, T < p.1 := by
  intro p hp
  unfold flushWindows at hp
  rw [collectAndRemove_eq_partition] at hp
  dsimp only at hp
  exact hst p (List.mem_filter.1 hp).1

theorem flushWindows_results_gt (cutoff T : ℤ) (st : CalcState)
    (hst : ∀ p ∈ st, T < p.1) : ∀ r ∈ (flushWindows cutoff st).2, T < r.windowEnd := by
  intro r hr
  unfold flushWindows at hr
  rw [collectAndRemove_eq_partition] at hr
  dsimp only at hr
  obtain ⟨q, hq, hrq⟩ := List.mem_flatMap.1 hr
  rw [windowResults_windowEnd q.1 q.2 r hrq]
  exact hst q (List.mem_filter.1 hq).1

theorem calcRun_emitted_gt (d T : ℤ) (hd : 0 < d) (cfgs : List FeatureConfig) :
    ∀ (evs : List CalcEvent) (st : CalcState),
      (∀ msg t, CalcEvent.ingest msg t ∈ evs → T ≤ t) →
      (∀ p ∈ st, T < p.1) →
      (∀ r ∈ (calcRun d cfgs st evs).2, T < r.windowEnd) ∧
      (∀ p ∈ (calcRun d cfgs st evs).1, T < p.1) := by
  intro evs
  induction evs with
  | nil =>
    intro st _ hst
    exact ⟨by simp [calcRun], by simpa [calcRun] using hst⟩
  | cons e rest ih =>
    intro st hev hst
    cases e with
    | ingest msg t0 =>
      have ht0 : T ≤ t0 := hev msg t0 (List.mem_cons_self _ _)
      have hst' := processMessage_keys d msg t0 T hd ht0 cfgs st hst
      have hrest := ih (processMessage d cfgs msg t0 st)
        (fun m t hm => hev m t (List.mem_cons_of_mem _ hm)) hst'
      refine ⟨?_, ?_⟩
      · intro r hr
        have hred : (calcRun d cfgs st (CalcEvent.ingest msg t0 :: rest)).2 =
            (calcRun d cfgs (processMessage d cfgs msg t0 st) rest).2 := by
          simp [calcRun, calcStep]
        rw [hred] at hr
        exact hrest.1 r hr
      · intro p hp
        have hred : (calcRun d cfgs st (CalcEvent.ingest msg t0 :: rest)).1 =
            (calcRun d cfgs (processMessage d cfgs msg t0 st) rest).1 := by
          simp [calcRun, calcStep]
        rw [hred] at hp
        exact hrest.2 p hp
    | flush cutoff =>
      have hst1 := flushWindows_retained_keys cutoff T st hst
      have hres := flushWindows_results_gt cutoff T st hst
      have hrest := ih (flushWindows cutoff st).1
        (fun m t hm => hev m t (List.mem_cons_of_mem _ hm)) hst1
      refine ⟨?_, ?_⟩
      · intro r hr
        have hred : (calcRun d cfgs st (CalcEvent.flush cutoff :: rest)).2 =
            (flushWindows cutoff st).2 ++
              (calcRun d cfgs (flushWindows cutoff st).1 rest).2 := by
          simp [calcRun, calcStep]
        rw [hred] at hr
        rcases List.mem_append.1 hr with h | h
        · exact hres r h
        · exact hrest.1 r h
      · intro p hp
        have hred : (calcRun d cfgs st (CalcEvent.flush cutoff :: rest)).1 =
            (calcRun d cfgs (flushWindows cutoff st).1 rest).1 := by
          simp [calcRun, calcStep]
        rw [hred] at hp
        exact hrest.2 p hp

/-- C4: with a positive window length, after a flush at cutoff `T` every
retained window ends after `T`; a message ingested at any instant
`t ≥ T` is assigned the window end `truncate(t, d) + d`, which is
strictly greater than `T`; and consequently no later flush — over any
continuation of the run whose ingest instants are all `≥ T` — ever emits
an `AggregationResult` for a window with end `≤ T` again. -/
theorem flushed_window_never_reemitted (d T : ℤ) (hd : 0 < d)
    (cfgs : List FeatureConfig) (st0 : CalcState) (evs : List CalcEvent)
    (hev : ∀ msg t, CalcEvent.ingest msg t ∈ evs → T ≤ t) :
    (∀ t, T ≤ t → windowEndOf d t = truncateTime t d + d ∧ T < windowEndOf d t) ∧
    (∀ p ∈ (flushWindows T st0).1, T < p.1) ∧
    (∀ r ∈ (calcRun d cfgs (flushWindows T st0).1 evs).2, T < r.windowEnd) := by
  have hst1 : ∀ p ∈ (flushWindows T st0).1, T < p.1 := by
    intro p hp
    unfold flushWindows at hp
    rw [collectAndRemove_eq_partition] at hp
    dsimp only at hp
    have hdec := (List.mem_filter.1 hp).2
    simp only [Bool.not_eq_true', decide_eq_false_iff_not, not_le] at hdec
    exact hdec
  refine ⟨?_, hst1, ?_⟩
  · intro t ht
    exact ⟨rfl, lt_of_le_of_lt ht (lt_windowEndOf d t hd)⟩
  · exact (calcRun_emitted_gt d T hd cfgs evs (flushWindows T st0).1 hev hst1).1

/-- C4 (witness): window length `10`, flush at `T = 20` of a state still
holding window `15`, then an ingest at instant `25` (assigned window end
`30 > 20`) and a final flush at `100`: every result emitted after the
flush at `20` is for a window ending after `20`. -/
theorem flushed_window_never_reemitted_witness :
    ((calcRun 10 [⟨"f", "numerical", ⟨none, none, none, none, none⟩⟩]
        (flushWindows 20 [(15, ⟨5, 15, [("f", ⟨1, 0, 2, 4⟩)]⟩)]).1
        [CalcEvent.ingest [("f", GoValue.vfloat 3)] 25, CalcEvent.flush 100]).2.all
      (fun r => decide ((20 : ℤ) < r.windowEnd))) = true := by
  have h := flushed_window_never_reemitted 10 20 (by norm_num)
    [⟨"f", "numerical", ⟨none, none, none, none, none⟩⟩]
    [(15, ⟨5, 15, [("f", ⟨1, 0, 2, 4⟩)]⟩)]
    [CalcEvent.ingest [("f", GoValue.vfloat 3)] 25, CalcEvent.flush 100]
    (by
      intro msg t hm
      rcases List.mem_cons.1 hm with heq | hm'
      · cases heq
        norm_num
      · rcases List.mem_cons.1 hm' with heq | hm''
        · cases heq
        · simp at hm'')
  rw [List.all_eq_true]
  intro r hr
  simpa using h.2.2 r hr

end FeatureLens







